import Mathlib

/-!
# Verification of the name-generator core (`src/name_generator/generator.py`)

Shallow embedding of the core name-generation logic: the ethnicity resolver
(`_select_ethnicity`), the name-store accessor (`_fetch_names`), the weighted
sampler (`_weighted_select`, built on Python's `random.choices`), and the
composer functions (`generate_first_name`, `generate_last_name`,
`generate_full_name`, `generate_batch`).

Modelling choices:
* Python floats become `ℚ` (the constants 0.40 and 0.20 become `2/5` and `1/5`).
* The SQLite store becomes an in-memory `Database` holding the two tables as
  lists of `NameRecord`s; the SQL `SELECT ... WHERE prob_x >= ? [AND gender = ?]`
  becomes a `List.filter`.  A missing database file is modelled as `none`.
* Python exceptions become an `Except PyError` result; `PyError` keeps the
  exception class (`ValueError` / `FileNotFoundError`) and the message.
* Randomness is explicit: every random draw consumed by the code is a `ℚ`
  parameter `u` (resp. `v`) standing for one output of the PRNG, uniform on
  `[0,1)`.  `random.choices(pop, weights, k=1)` is modelled by `choices1`,
  following the CPython implementation: cumulative weights via
  `itertools.accumulate`, a `ValueError` when the total weight is not positive,
  and selection of `pop[bisect_right(cum_weights, u * total, 0, n - 1)]`.
-/

namespace NameGen

unseal Rat.add Rat.mul Rat.inv Rat.sub

/-- The `Gender` enum of `generator.py` (`MALE = "M"`, `FEMALE = "F"`,
`ANY = "ANY"`). -/
inductive Gender where
  | MALE
  | FEMALE
  | ANY
deriving DecidableEq, Repr

/-- The `.value` string of a `Gender` member. -/
def Gender.value : Gender → String
  | .MALE => "M"
  | .FEMALE => "F"
  | .ANY => "ANY"

/-- The `Ethnicity` enum of `generator.py` (six members, `ANY` included). -/
inductive Ethnicity where
  | WHITE
  | BLACK
  | HISPANIC
  | ASIAN
  | OTHER
  | ANY
deriving DecidableEq, Repr

/-- The five concrete ethnic categories (a resolved, non-`any` ethnicity;
these are the strings that can appear as `prob_<ethnicity>` column suffixes). -/
inductive EthnicityCat where
  | white
  | black
  | hispanic
  | asian
  | other
deriving DecidableEq, Repr

/-- The `.value` string of a concrete category. -/
def EthnicityCat.pyStr : EthnicityCat → String
  | .white => "white"
  | .black => "black"
  | .hispanic => "hispanic"
  | .asian => "asian"
  | .other => "other"

/-- The concrete category named by an `Ethnicity` member, `none` for `ANY`
(mirrors the guard `ethnicity and ethnicity != Ethnicity.ANY`). -/
def Ethnicity.toCat : Ethnicity → Option EthnicityCat
  | .WHITE => some .white
  | .BLACK => some .black
  | .HISPANIC => some .hispanic
  | .ASIAN => some .asian
  | .OTHER => some .other
  | .ANY => none

/-- Re-embedding of a concrete category into the `Ethnicity` enum (mirrors the
constructor call `Ethnicity(target_ethnicity)` in `generate_full_name`). -/
def EthnicityCat.toEthnicity : EthnicityCat → Ethnicity
  | .white => .WHITE
  | .black => .BLACK
  | .hispanic => .HISPANIC
  | .asian => .ASIAN
  | .other => .OTHER

/-- The `NameRecord` dataclass: one name row.  `count` is the popularity count
(a non-negative frequency count in the voter-file data); the five `prob_*`
columns are the per-category ethnic probabilities. -/
structure NameRecord where
  name : String
  gender : Option String
  count : ℕ
  prob_white : ℚ
  prob_black : ℚ
  prob_hispanic : ℚ
  prob_asian : ℚ
  prob_other : ℚ
deriving DecidableEq, Repr

/-- `getattr(record, f"prob_{ethnicity}")` / the `prob_<ethnicity>` column of a
row: the record's probability for a concrete category. -/
def NameRecord.prob (r : NameRecord) : EthnicityCat → ℚ
  | .white => r.prob_white
  | .black => r.prob_black
  | .hispanic => r.prob_hispanic
  | .asian => r.prob_asian
  | .other => r.prob_other

/-- The two logical tables of the name store. -/
inductive Table where
  | first_names
  | surnames
deriving DecidableEq, Repr

/-- The name store: the contents of the two tables of `names.db`.  Surname
records carry `gender = none` (the `surnames` table has no gender column). -/
structure Database where
  first_names : List NameRecord
  surnames : List NameRecord
deriving DecidableEq, Repr

/-- The rows of one table of the store. -/
def Database.rows (d : Database) : Table → List NameRecord
  | .first_names => d.first_names
  | .surnames => d.surnames

/-- A Python exception as surfaced by the generator: the exception class plus
its message.  `fileNotFoundError` is raised by the lazy `conn` property when
the database file does not exist; every other failure of the core is a
`valueError`. -/
inductive PyError where
  | valueError (msg : String)
  | fileNotFoundError (msg : String)
deriving DecidableEq, Repr

instance {ε α : Type} [DecidableEq ε] [DecidableEq α] :
    DecidableEq (Except ε α)
  | .error a, .error b =>
    decidable_of_iff (a = b) ⟨fun h => h ▸ rfl, fun h => by injection h⟩
  | .error _, .ok _ => isFalse fun h => Except.noConfusion h
  | .ok _, .error _ => isFalse fun h => Except.noConfusion h
  | .ok a, .ok b =>
    decidable_of_iff (a = b) ⟨fun h => h ▸ rfl, fun h => by injection h⟩

/-- Message of the `FileNotFoundError` raised by `NameGenerator.conn` when the
database file is missing (the Python message also interpolates the file path,
which is outside this embedding). -/
def dbNotFoundMsg : String := "Database not found"

/-- Message of the `ValueError` raised by `generate_first_name` when both
threshold attempts return no candidates
(`f"No first names found for ethnicity={target_ethnicity}, gender={gender.value}"`). -/
def noFirstNamesMsg (c : EthnicityCat) (g : Gender) : String :=
  "No first names found for ethnicity=" ++ c.pyStr ++ ", gender=" ++ g.value

/-- Message of the `ValueError` raised by `generate_last_name` when both
threshold attempts return no candidates
(`f"No surnames found for ethnicity={target_ethnicity}"`). -/
def noSurnamesMsg (c : EthnicityCat) : String :=
  "No surnames found for ethnicity=" ++ c.pyStr

/-- Message of the `ValueError` raised by `_weighted_select` on an empty
candidate list. -/
def emptySelectionMsg : String := "No names available for selection"

/-- Message of the `ValueError` raised by `random.choices` when the total of
the weights is not positive. -/
def zeroTotalMsg : String := "Total of weights must be greater than zero"

/-- `itertools.accumulate` over rationals: the list of prefix sums
(`accumulate [a, b, c] = [a, a + b, a + b + c]`), as used by `random.choices`
to build `cum_weights`. -/
def accumulate : List ℚ → List ℚ
  | [] => []
  | a :: t => a :: (accumulate t).map (fun s => a + s)

/-- `bisect.bisect_right(a, x, 0, hi)` on a nondecreasing list `a` (the only
shape `random.choices` ever passes): the insertion point for `x` in `a[0:hi]`,
i.e. the number of entries among the first `hi` that are `≤ x`. -/
def bisectRight (a : List ℚ) (x : ℚ) (hi : ℕ) : ℕ :=
  (a.take hi).countP (fun c => decide (c ≤ x))

/-- `random.choices(population, weights=weights, k=1)[0]`, with the uniform
draw `random()` made explicit as `u`.  Follows the CPython implementation:
length check, cumulative weights, `ValueError` on non-positive total, then
`population[bisect_right(cum_weights, u * total, 0, len(population) - 1)]`.
The final index is always in range (see `choices1_eq_get`); the out-of-range
branch mirrors Python's `IndexError` and is dead code. -/
def choices1 {α : Type} (population : List α) (weights : List ℚ) (u : ℚ) :
    Except PyError α :=
  if weights.length ≠ population.length then
    .error (.valueError "The number of weights does not match the population")
  else
    let cum := accumulate weights
    let total := cum.getLast?.getD 0
    if total ≤ 0 then .error (.valueError zeroTotalMsg)
    else
      let i := bisectRight cum (u * total) (population.length - 1)
      if h : i < population.length then .ok (population.get ⟨i, h⟩)
      else .error (.valueError "list index out of range")

/-- An `EthnicDistribution`: the key/weight pairs of a distribution dict, in
insertion order. -/
def EthnicDistribution : Type := List (EthnicityCat × ℚ)

/-- `DEFAULT_ETHNIC_DISTRIBUTION` from `generator.py`
(`white .60, hispanic .18, black .13, asian .06, other .03`). -/
def DEFAULT_ETHNIC_DISTRIBUTION : EthnicDistribution :=
  [(.white, 60/100), (.hispanic, 18/100), (.black, 13/100),
   (.asian, 6/100), (.other, 3/100)]

/-- The weighted random draw over a distribution in `_select_ethnicity`:
`random.choices(list(distribution.keys()), weights=list(distribution.values()), k=1)[0]`. -/
def drawCategory (d : EthnicDistribution) (v : ℚ) : Except PyError EthnicityCat :=
  choices1 (d.map Prod.fst) (d.map Prod.snd) v

/-- `NameGenerator._select_ethnicity`: a concrete requested ethnicity is
returned unchanged; otherwise one category is drawn from the supplied
distribution (or the default one), `v` being the uniform draw. -/
def selectEthnicity (ethnicity : Option Ethnicity)
    (distribution : Option EthnicDistribution) (v : ℚ) :
    Except PyError EthnicityCat :=
  match ethnicity with
  | some e =>
    match e.toCat with
    | some c => .ok c
    | none => drawCategory (distribution.getD DEFAULT_ETHNIC_DISTRIBUTION) v
  | none => drawCategory (distribution.getD DEFAULT_ETHNIC_DISTRIBUTION) v

/-- `NameGenerator._fetch_names`: on a missing database file the lazy `conn`
property raises `FileNotFoundError`; otherwise the rows of `table` satisfying
`prob_<ethnicity> >= min_probability` are returned, restricted to
`gender = <g>` when a gender other than `ANY` is passed and the table is
`first_names` (the SQL `AND gender = ?` clause). -/
def fetchNames (db : Option Database) (table : Table) (ethnicity : EthnicityCat)
    (gender : Option Gender) (min_probability : ℚ) :
    Except PyError (List NameRecord) :=
  match db with
  | none => .error (.fileNotFoundError dbNotFoundMsg)
  | some d =>
    let genderClause : Option Gender :=
      match gender with
      | some g => if g ≠ Gender.ANY ∧ table = Table.first_names then some g else none
      | none => none
    .ok ((d.rows table).filter fun r =>
      decide (min_probability ≤ r.prob ethnicity) &&
      (match genderClause with
       | some g => decide (r.gender = some g.value)
       | none => true))

/-- The selection weight `_weighted_select` computes for each candidate:
`getattr(name, f"prob_{ethnicity}") * (1 + (name.count / 100000))`. -/
def sampleWeights (names : List NameRecord) (ethnicity : EthnicityCat) : List ℚ :=
  names.map fun r => r.prob ethnicity * (1 + (r.count : ℚ) / 100000)

/-- `NameGenerator._weighted_select`: `ValueError` on an empty candidate list,
otherwise `random.choices(names, weights=weights, k=1)[0]` with the weights of
`sampleWeights`, `u` being the uniform draw. -/
def weightedSelect (names : List NameRecord) (ethnicity : EthnicityCat) (u : ℚ) :
    Except PyError NameRecord :=
  if names.isEmpty then .error (.valueError emptySelectionMsg)
  else choices1 names (sampleWeights names ethnicity) u

/-- One call to `_fetch_names`, as recorded in the traced generators below. -/
structure FetchCall where
  table : Table
  ethnicity : EthnicityCat
  gender : Option Gender
  min_probability : ℚ
deriving DecidableEq, Repr

/-- `NameGenerator.generate_first_name`, instrumented: the result is paired
with the list of `_fetch_names` calls the run performs, in order.  `v` is the
uniform draw of the ethnicity resolution, `u` the one of the weighted
selection.  Control flow follows the source: resolve the category, coalesce
`gender = gender or Gender.ANY`, fetch at `min_probability`, refetch once at
`0.20` when the result is empty and `min_probability > 0.20`, raise
`ValueError` when the surviving candidate list is empty, else weighted-select. -/
def generateFirstNameT (db : Option Database) (ethnicity : Option Ethnicity)
    (gender : Option Gender) (distribution : Option EthnicDistribution)
    (min_probability : ℚ) (v u : ℚ) :
    Except PyError NameRecord × List FetchCall :=
  match selectEthnicity ethnicity distribution v with
  | .error e => (.error e, [])
  | .ok target =>
    let g := gender.getD Gender.ANY
    let call1 : FetchCall := ⟨Table.first_names, target, some g, min_probability⟩
    let finish : List NameRecord → Except PyError NameRecord := fun ns =>
      if ns.isEmpty then .error (.valueError (noFirstNamesMsg target g))
      else weightedSelect ns target u
    match fetchNames db Table.first_names target (some g) min_probability with
    | .error e => (.error e, [call1])
    | .ok names =>
      if names.isEmpty = true ∧ 1/5 < min_probability then
        let call2 : FetchCall := ⟨Table.first_names, target, some g, 1/5⟩
        match fetchNames db Table.first_names target (some g) (1/5) with
        | .error e => (.error e, [call1, call2])
        | .ok names2 => (finish names2, [call1, call2])
      else (finish names, [call1])

/-- `NameGenerator.generate_first_name` (result only). -/
def generateFirstName (db : Option Database) (ethnicity : Option Ethnicity)
    (gender : Option Gender) (distribution : Option EthnicDistribution)
    (min_probability : ℚ) (v u : ℚ) : Except PyError NameRecord :=
  (generateFirstNameT db ethnicity gender distribution min_probability v u).1

/-- `NameGenerator.generate_last_name`, instrumented like
`generateFirstNameT`.  The surname fetches pass no gender
(`_fetch_names("surnames", target_ethnicity, min_probability=...)`). -/
def generateLastNameT (db : Option Database) (ethnicity : Option Ethnicity)
    (distribution : Option EthnicDistribution)
    (min_probability : ℚ) (v u : ℚ) :
    Except PyError NameRecord × List FetchCall :=
  match selectEthnicity ethnicity distribution v with
  | .error e => (.error e, [])
  | .ok target =>
    let call1 : FetchCall := ⟨Table.surnames, target, none, min_probability⟩
    let finish : List NameRecord → Except PyError NameRecord := fun ns =>
      if ns.isEmpty then .error (.valueError (noSurnamesMsg target))
      else weightedSelect ns target u
    match fetchNames db Table.surnames target none min_probability with
    | .error e => (.error e, [call1])
    | .ok names =>
      if names.isEmpty = true ∧ 1/5 < min_probability then
        let call2 : FetchCall := ⟨Table.surnames, target, none, 1/5⟩
        match fetchNames db Table.surnames target none (1/5) with
        | .error e => (.error e, [call1, call2])
        | .ok names2 => (finish names2, [call1, call2])
      else (finish names, [call1])

/-- `NameGenerator.generate_last_name` (result only). -/
def generateLastName (db : Option Database) (ethnicity : Option Ethnicity)
    (distribution : Option EthnicDistribution)
    (min_probability : ℚ) (v u : ℚ) : Except PyError NameRecord :=
  (generateLastNameT db ethnicity distribution min_probability v u).1

/-- `NameGenerator.generate_full_name`, instrumented: resolve the category once
(draw `v`), then call `generate_first_name` and `generate_last_name` with the
concrete `Ethnicity(target_ethnicity)`.  `v1`/`v2` are the (unused, since the
passed ethnicity is concrete) resolution draws of the two sub-calls, `u1`/`u2`
their selection draws. -/
def generateFullNameT (db : Option Database) (ethnicity : Option Ethnicity)
    (gender : Option Gender) (distribution : Option EthnicDistribution)
    (min_probability : ℚ) (v v1 u1 v2 u2 : ℚ) :
    Except PyError (NameRecord × NameRecord) × List FetchCall :=
  match selectEthnicity ethnicity distribution v with
  | .error e => (.error e, [])
  | .ok target =>
    match generateFirstNameT db (some target.toEthnicity) gender distribution
        min_probability v1 u1 with
    | (.error e, t1) => (.error e, t1)
    | (.ok first, t1) =>
      match generateLastNameT db (some target.toEthnicity) distribution
          min_probability v2 u2 with
      | (.error e, t2) => (.error e, t1 ++ t2)
      | (.ok last, t2) => (.ok (first, last), t1 ++ t2)

/-- `NameGenerator.generate_full_name` (result only). -/
def generateFullName (db : Option Database) (ethnicity : Option Ethnicity)
    (gender : Option Gender) (distribution : Option EthnicDistribution)
    (min_probability : ℚ) (v v1 u1 v2 u2 : ℚ) :
    Except PyError (NameRecord × NameRecord) :=
  (generateFullNameT db ethnicity gender distribution min_probability v v1 u1 v2 u2).1

/-- Python's `round` to 3 decimal places on a rational (round half to even). -/
def round3 (x : ℚ) : ℚ :=
  let y := x * 1000
  (if y - (⌊y⌋ : ℚ) = 1/2 then (if ⌊y⌋ % 2 = 0 then ⌊y⌋ else ⌊y⌋ + 1)
   else round y : ℤ) / 1000

/-- The per-category probabilities reported in one batch entry
(the `ethnicity_probabilities` dict). -/
structure EthProbs where
  white : ℚ
  black : ℚ
  hispanic : ℚ
  asian : ℚ
  other : ℚ
deriving DecidableEq, Repr

/-- The averaged, 3-decimal-rounded pair probabilities of a full-name batch
entry: `round((first.prob_x + last.prob_x) / 2, 3)` per category. -/
def pairProbs (first last : NameRecord) : EthProbs :=
  { white := round3 ((first.prob_white + last.prob_white) / 2)
    black := round3 ((first.prob_black + last.prob_black) / 2)
    hispanic := round3 ((first.prob_hispanic + last.prob_hispanic) / 2)
    asian := round3 ((first.prob_asian + last.prob_asian) / 2)
    other := round3 ((first.prob_other + last.prob_other) / 2) }

/-- One result dict of `generate_batch`.  The keys `last_name` and `full_name`
are present only in the `include_surnames` branch, hence `Option` fields;
`first_name`, `gender` and `ethnicity_probabilities` are present in both
branches. -/
structure BatchEntry where
  first_name : String
  last_name : Option String
  full_name : Option String
  gender : Option String
  ethnicity_probabilities : EthProbs
deriving DecidableEq, Repr

/-- The uniform draws consumed by one iteration of `generate_batch`:
`v` the full-name resolution draw, `v1`/`u1` the first-name sub-call draws,
`v2`/`u2` the surname sub-call draws. -/
structure RandSrc where
  v : ℚ
  v1 : ℚ
  u1 : ℚ
  v2 : ℚ
  u2 : ℚ

/-- One iteration of the `generate_batch` loop: build one result dict from
`generate_full_name` (or `generate_first_name` when
`include_surnames = false`), both called with the default
`min_probability = 0.40`. -/
def batchStep (db : Option Database) (ethnicity : Option Ethnicity)
    (gender : Option Gender) (include_surnames : Bool)
    (distribution : Option EthnicDistribution) (rs : RandSrc) :
    Except PyError BatchEntry :=
  if include_surnames then
    match generateFullName db ethnicity gender distribution (2/5)
        rs.v rs.v1 rs.u1 rs.v2 rs.u2 with
    | .error e => .error e
    | .ok (first, last) =>
      .ok { first_name := first.name
            last_name := some last.name
            full_name := some (first.name ++ " " ++ last.name)
            gender := first.gender
            ethnicity_probabilities := pairProbs first last }
  else
    match generateFirstName db ethnicity gender distribution (2/5)
        rs.v1 rs.u1 with
    | .error e => .error e
    | .ok first =>
      .ok { first_name := first.name
            last_name := none
            full_name := none
            gender := first.gender
            ethnicity_probabilities :=
              ⟨first.prob_white, first.prob_black, first.prob_hispanic,
               first.prob_asian, first.prob_other⟩ }

/-- The loop of `generate_batch`: `k` remaining iterations, the `i`-th
iteration consuming the draws `rand i`; an exception aborts the whole batch. -/
def generateBatchAux (db : Option Database) (ethnicity : Option Ethnicity)
    (gender : Option Gender) (include_surnames : Bool)
    (distribution : Option EthnicDistribution) (rand : ℕ → RandSrc) :
    ℕ → ℕ → Except PyError (List BatchEntry)
  | _, 0 => .ok []
  | i, k + 1 =>
    match batchStep db ethnicity gender include_surnames distribution (rand i) with
    | .error e => .error e
    | .ok entry =>
      match generateBatchAux db ethnicity gender include_surnames distribution
          rand (i + 1) k with
      | .error e => .error e
      | .ok rest => .ok (entry :: rest)

/-- `NameGenerator.generate_batch`. -/
def generateBatch (db : Option Database) (count : ℕ)
    (ethnicity : Option Ethnicity) (gender : Option Gender)
    (include_surnames : Bool) (distribution : Option EthnicDistribution)
    (rand : ℕ → RandSrc) : Except PyError (List BatchEntry) :=
  generateBatchAux db ethnicity gender include_surnames distribution rand 0 count

/-- The index `random.choices` computes inside `_weighted_select`:
`bisect_right(cum_weights, u * total, 0, len(names) - 1)` over the cumulative
sample weights. -/
def selIdx (names : List NameRecord) (cat : EthnicityCat) (u : ℚ) : ℕ :=
  bisectRight (accumulate (sampleWeights names cat))
    (u * (sampleWeights names cat).sum) (names.length - 1)

/-! ## Helper lemmas about `accumulate` and `bisectRight` -/

theorem accumulate_length (l : List ℚ) : (accumulate l).length = l.length := by
  induction l with
  | nil => rfl
  | cons a t ih => simp [accumulate, ih]

theorem accumulate_getElem? (l : List ℚ) (j : ℕ) (hj : j < l.length) :
    (accumulate l)[j]? = some ((l.take (j + 1)).sum) := by
  induction l generalizing j with
  | nil => simp at hj
  | cons a t ih =>
    cases j with
    | zero => simp [accumulate]
    | succ k =>
      have hk : k < t.length := by simpa using hj
      simp [accumulate, ih k hk, List.take_succ_cons]

theorem getLast?_map {α β : Type} (f : α → β) (l : List α) :
    (l.map f).getLast? = l.getLast?.map f := by
  induction l with
  | nil => rfl
  | cons a t ih =>
    cases t with
    | nil => rfl
    | cons b t' => simpa using ih

theorem accumulate_getLast (l : List ℚ) :
    (accumulate l).getLast?.getD 0 = l.sum := by
  induction l with
  | nil => rfl
  | cons a t ih =>
    rw [accumulate, List.getLast?_cons, Option.getD_some, getLast?_map]
    cases h : (accumulate t).getLast? with
    | none =>
      rw [h] at ih
      simp only [Option.getD_none] at ih
      simp [← ih]
    | some s =>
      rw [h] at ih
      simp only [Option.getD_some] at ih
      simp [ih]

theorem accumulate_nonneg (l : List ℚ) (h : ∀ w ∈ l, 0 ≤ w) :
    ∀ c ∈ accumulate l, 0 ≤ c := by
  induction l with
  | nil => simp [accumulate]
  | cons a t ih =>
    intro c hc
    have ha : 0 ≤ a := h a (by simp)
    simp only [accumulate, List.mem_cons, List.mem_map] at hc
    rcases hc with rfl | ⟨s, hs, rfl⟩
    · exact ha
    · have hst : 0 ≤ s := ih (fun w hw => h w (by simp [hw])) s hs
      linarith

theorem accumulate_sorted (l : List ℚ) (h : ∀ w ∈ l, 0 ≤ w) :
    (accumulate l).Sorted (· ≤ ·) := by
  induction l with
  | nil => simp [accumulate]
  | cons a t ih =>
    have ha : 0 ≤ a := h a (by simp)
    have ht : ∀ w ∈ t, 0 ≤ w := fun w hw => h w (by simp [hw])
    rw [accumulate, List.sorted_cons]
    refine ⟨?_, ?_⟩
    · intro b hb
      simp only [List.mem_map] at hb
      obtain ⟨s, hs, rfl⟩ := hb
      have := accumulate_nonneg t ht s hs
      linarith
    · exact (ih ht).map _ (fun x y hxy => by linarith)

theorem sum_take_succ (l : List ℚ) (j : ℕ) :
    (l.take (j + 1)).sum = (l.take j).sum + l[j]?.getD 0 := by
  rw [List.take_succ, List.sum_append]
  cases h : l[j]? <;> simp

theorem sum_take_mono (l : List ℚ) (h : ∀ w ∈ l, 0 ≤ w) {i j : ℕ} (hij : i ≤ j) :
    (l.take i).sum ≤ (l.take j).sum := by
  induction hij with
  | refl => exact le_rfl
  | step ih' =>
    rename_i m hm
    refine le_trans hm ?_
    rw [sum_take_succ]
    have : 0 ≤ l[m]?.getD 0 := by
      cases hg : l[m]? with
      | none => simp
      | some a =>
        have : a ∈ l := by
          obtain ⟨h1, rfl⟩ := List.getElem?_eq_some.mp hg
          exact List.getElem_mem h1
        simpa using h a this
    linarith

/-- On a nondecreasing list, the count of entries `≤ x` is `i` as soon as the
first `i` entries are `≤ x` and the entry at position `i` (when it exists)
exceeds `x`. -/
theorem countP_le_of_sorted (x : ℚ) :
    ∀ (l : List ℚ), l.Sorted (· ≤ ·) → ∀ i, i ≤ l.length →
      (∀ j, j < i → ∀ c, l[j]? = some c → c ≤ x) →
      (∀ c, l[i]? = some c → x < c) →
      l.countP (fun c => decide (c ≤ x)) = i := by
  intro l
  induction l with
  | nil =>
    intro _ i hi _ _
    simp only [List.length_nil] at hi
    simp only [List.countP_nil]
    omega
  | cons a t ih =>
    intro hs i hi hlt hgt
    obtain ⟨ha, hst⟩ := List.sorted_cons.mp hs
    cases i with
    | zero =>
      have hxa : x < a := hgt a (by simp)
      have ht0 : t.countP (fun c => decide (c ≤ x)) = 0 := by
        apply ih hst 0 (Nat.zero_le _)
        · intro j hj c _
          exact absurd hj (Nat.not_lt_zero j)
        · intro c hc
          have hct : c ∈ t := by
            obtain ⟨h1, rfl⟩ := List.getElem?_eq_some.mp hc
            exact List.getElem_mem h1
          exact lt_of_lt_of_le hxa (ha c hct)
      simp [List.countP_cons, ht0, not_le.mpr hxa]
    | succ k =>
      have hax : a ≤ x := hlt 0 (Nat.succ_pos k) a (by simp)
      have htk : t.countP (fun c => decide (c ≤ x)) = k := by
        apply ih hst k (by simpa using hi)
        · intro j hj c hc
          exact hlt (j + 1) (by omega) c (by simpa using hc)
        · intro c hc
          exact hgt c (by simpa using hc)
      simp [List.countP_cons, htk, hax]

/-- Every `x ∈ [0, sum)` lands in some prefix-sum interval. -/
theorem exists_take_interval (l : List ℚ) : ∀ (x : ℚ), (∀ w ∈ l, 0 ≤ w) →
    0 ≤ x → x < l.sum →
    ∃ i, i < l.length ∧ (l.take i).sum ≤ x ∧ x < (l.take (i + 1)).sum := by
  induction l with
  | nil =>
    intro x _ hx0 hxs
    simp only [List.sum_nil] at hxs
    linarith
  | cons a t ih =>
    intro x h hx0 hxs
    by_cases hxa : x < a
    · exact ⟨0, by simp, by simpa using hx0, by simpa using hxa⟩
    · push_neg at hxa
      have ht : ∀ w ∈ t, 0 ≤ w := fun w hw => h w (by simp [hw])
      have hsum : x - a < t.sum := by
        rw [List.sum_cons] at hxs
        linarith
      obtain ⟨i, hi, h1, h2⟩ := ih (x - a) ht (by linarith) hsum
      refine ⟨i + 1, by simpa using hi, ?_, ?_⟩
      · rw [List.take_succ_cons, List.sum_cons]
        linarith
      · rw [List.take_succ_cons, List.sum_cons]
        linarith

/-- Forward characterization of the `random.choices` index: when `x` lies in
the `i`-th prefix-sum interval of the weights, `bisect_right` over the
cumulative weights (with `hi = n - 1`) returns `i`. -/
theorem bisect_accumulate_eq (l : List ℚ) (x : ℚ) (h : ∀ w ∈ l, 0 ≤ w)
    (i : ℕ) (hil : i < l.length)
    (h1 : (l.take i).sum ≤ x) (h2 : x < (l.take (i + 1)).sum) :
    bisectRight (accumulate l) x (l.length - 1) = i := by
  unfold bisectRight
  have hlen : ((accumulate l).take (l.length - 1)).length = l.length - 1 := by
    rw [List.length_take, accumulate_length]
    omega
  apply countP_le_of_sorted
  · exact ((accumulate_sorted l h).sublist (List.take_sublist _ _))
  · omega
  · intro j hj c hc
    have hjl : j < l.length - 1 := by
      have := (List.getElem?_eq_some.mp hc).1
      omega
    rw [List.getElem?_take_of_lt hjl, accumulate_getElem? l j (by omega)] at hc
    have hc' : c = (l.take (j + 1)).sum := by
      injection hc.symm
    rw [hc']
    exact le_trans (sum_take_mono l h (by omega)) h1
  · intro c hc
    have hjl : i < l.length - 1 := by
      have := (List.getElem?_eq_some.mp hc).1
      omega
    rw [List.getElem?_take_of_lt hjl, accumulate_getElem? l i (by omega)] at hc
    have hc' : c = (l.take (i + 1)).sum := by
      injection hc.symm
    rw [hc']
    exact h2

/-- Full characterization: the `random.choices` index equals `i` exactly when
the scaled draw lands in the `i`-th prefix-sum interval. -/
theorem bisect_accumulate_iff (l : List ℚ) (x : ℚ) (h : ∀ w ∈ l, 0 ≤ w)
    (hx0 : 0 ≤ x) (hxs : x < l.sum) (i : ℕ) (hil : i < l.length) :
    bisectRight (accumulate l) x (l.length - 1) = i ↔
      (l.take i).sum ≤ x ∧ x < (l.take (i + 1)).sum := by
  constructor
  · intro hEq
    obtain ⟨j, hj, hs1, hs2⟩ := exists_take_interval l x h hx0 hxs
    have hj' := bisect_accumulate_eq l x h j hj hs1 hs2
    have : i = j := by omega
    exact this ▸ ⟨hs1, hs2⟩
  · intro hb
    exact bisect_accumulate_eq l x h i hil hb.1 hb.2

/-! ## Helper lemmas about `choices1` and `weightedSelect` -/

theorem choices1_eq_get {α : Type} (pop : List α) (weights : List ℚ) (u : ℚ)
    (hlen : weights.length = pop.length) (hpos : 0 < weights.sum) :
    ∃ h : bisectRight (accumulate weights) (u * weights.sum) (pop.length - 1) <
        pop.length,
      choices1 pop weights u =
        .ok (pop.get ⟨bisectRight (accumulate weights) (u * weights.sum)
          (pop.length - 1), h⟩) := by
  have htot := accumulate_getLast weights
  have hplen : 0 < pop.length := by
    rcases Nat.eq_zero_or_pos pop.length with h0 | h
    · exfalso
      have hw : weights = [] := List.length_eq_zero.mp (by omega)
      rw [hw] at hpos
      simp at hpos
    · exact h
  have hidx : bisectRight (accumulate weights) (u * weights.sum)
      (pop.length - 1) < pop.length := by
    unfold bisectRight
    have h1 : ((accumulate weights).take (pop.length - 1)).countP
          (fun c => decide (c ≤ u * weights.sum)) ≤
        ((accumulate weights).take (pop.length - 1)).length :=
      List.countP_le_length _
    have h2 : ((accumulate weights).take (pop.length - 1)).length ≤ pop.length - 1 := by
      rw [List.length_take]
      omega
    omega
  refine ⟨hidx, ?_⟩
  unfold choices1
  rw [if_neg (by omega)]
  simp only [htot]
  rw [if_neg (not_le.mpr hpos), dif_pos hidx]

theorem choices1_mem {α : Type} (pop : List α) (weights : List ℚ) (u : ℚ) (a : α)
    (h : choices1 pop weights u = .ok a) : a ∈ pop := by
  unfold choices1 at h
  split at h
  · simp at h
  · simp only at h
    split at h
    · simp at h
    · split at h
      · rename_i hlt
        have ha : pop.get ⟨bisectRight (accumulate weights)
            (u * (accumulate weights).getLast?.getD 0) (pop.length - 1), hlt⟩ = a := by
          injection h
        rw [← ha]
        exact pop.get_mem _ _
      · simp at h

theorem sampleWeights_length (names : List NameRecord) (cat : EthnicityCat) :
    (sampleWeights names cat).length = names.length :=
  List.length_map _ _

theorem weightedSelect_eq_get (names : List NameRecord) (cat : EthnicityCat)
    (u : ℚ) (hpos : 0 < (sampleWeights names cat).sum) :
    ∃ h : selIdx names cat u < names.length,
      weightedSelect names cat u = .ok (names.get ⟨selIdx names cat u, h⟩) := by
  have hlen := sampleWeights_length names cat
  obtain ⟨h1, h2⟩ := choices1_eq_get names (sampleWeights names cat) u hlen hpos
  have hne : names.isEmpty = false := by
    cases names with
    | nil => simp [sampleWeights] at hpos
    | cons a t => rfl
  exact ⟨h1, by rw [weightedSelect, hne]; simpa using h2⟩

theorem weightedSelect_mem (names : List NameRecord) (cat : EthnicityCat)
    (u : ℚ) (r : NameRecord) (h : weightedSelect names cat u = .ok r) :
    r ∈ names := by
  unfold weightedSelect at h
  split at h
  · simp at h
  · exact choices1_mem _ _ _ _ h

/-! ## Helper lemmas about `fetchNames` -/

theorem mem_fetchNames (d : Database) (table : Table) (cat : EthnicityCat)
    (g : Option Gender) (p : ℚ) (ns : List NameRecord) (r : NameRecord)
    (h : fetchNames (some d) table cat g p = .ok ns) :
    r ∈ ns ↔ r ∈ d.rows table ∧ p ≤ r.prob cat ∧
      ∀ gg, g = some gg → gg ≠ Gender.ANY → table = Table.first_names →
        r.gender = some gg.value := by
  rcases g with _ | gg
  · simp only [fetchNames] at h
    rw [Except.ok.injEq] at h
    subst h
    rw [List.mem_filter]
    simp only [Bool.and_true, decide_eq_true_eq]
    constructor
    · rintro ⟨hm, hp⟩
      exact ⟨hm, hp, fun gg hgg => Option.noConfusion hgg⟩
    · rintro ⟨hm, hp, _⟩
      exact ⟨hm, hp⟩
  · by_cases hcond : gg ≠ Gender.ANY ∧ table = Table.first_names
    · simp only [fetchNames, if_pos hcond] at h
      rw [Except.ok.injEq] at h
      subst h
      rw [List.mem_filter]
      simp only [Bool.and_eq_true, decide_eq_true_eq]
      constructor
      · rintro ⟨hm, hp, hg⟩
        refine ⟨hm, hp, ?_⟩
        rintro gg' hgg' _ _
        rw [Option.some.injEq] at hgg'
        subst hgg'
        exact hg
      · rintro ⟨hm, hp, hg⟩
        exact ⟨hm, hp, hg gg rfl hcond.1 hcond.2⟩
    · simp only [fetchNames, if_neg hcond] at h
      rw [Except.ok.injEq] at h
      subst h
      rw [List.mem_filter]
      simp only [Bool.and_true, decide_eq_true_eq]
      constructor
      · rintro ⟨hm, hp⟩
        refine ⟨hm, hp, ?_⟩
        rintro gg' hgg' hne htab
        rw [Option.some.injEq] at hgg'
        subst hgg'
        exact absurd ⟨hne, htab⟩ hcond
      · rintro ⟨hm, hp, _⟩
        exact ⟨hm, hp⟩

theorem fetchNames_prob (d : Database) (table : Table) (cat : EthnicityCat)
    (g : Option Gender) (p : ℚ) (ns : List NameRecord)
    (h : fetchNames (some d) table cat g p = .ok ns) :
    ∀ r ∈ ns, p ≤ r.prob cat := fun r hr =>
  ((mem_fetchNames d table cat g p ns r h).mp hr).2.1

theorem fetchNames_isOk (d : Database) (table : Table) (cat : EthnicityCat)
    (g : Option Gender) (p : ℚ) :
    ∃ ns, fetchNames (some d) table cat g p = .ok ns := by
  simp only [fetchNames]
  exact ⟨_, rfl⟩

/-! ## Helper lemmas about the composer functions -/

theorem selectEthnicity_concrete (c : EthnicityCat)
    (dist : Option EthnicDistribution) (w : ℚ) :
    selectEthnicity (some c.toEthnicity) dist w = .ok c := by
  cases c <;> rfl

/-- Any record returned by a successful `generate_first_name` run at threshold
`p` came out of a fetch at threshold `p` or at the fallback threshold `0.20`,
so its probability for the resolved category is at least `min p 0.20`. -/
theorem generateFirstName_ok_min_prob (d : Database) (e : Option Ethnicity)
    (g : Option Gender) (dist : Option EthnicDistribution) (p v u : ℚ)
    (c : EthnicityCat) (r : NameRecord)
    (hsel : selectEthnicity e dist v = .ok c)
    (hok : generateFirstName (some d) e g dist p v u = .ok r) :
    min p (1/5) ≤ r.prob c := by
  unfold generateFirstName generateFirstNameT at hok
  rw [hsel] at hok
  simp only at hok
  obtain ⟨ns1, hf1⟩ :=
    fetchNames_isOk d Table.first_names c (some (g.getD Gender.ANY)) p
  rw [hf1] at hok
  simp only at hok
  split at hok
  · obtain ⟨ns2, hf2⟩ :=
      fetchNames_isOk d Table.first_names c (some (g.getD Gender.ANY)) (1/5)
    rw [hf2] at hok
    simp only at hok
    split at hok
    · simp at hok
    · have hmem := weightedSelect_mem ns2 c u r hok
      have := fetchNames_prob d Table.first_names c (some (g.getD Gender.ANY))
        (1/5) ns2 hf2 r hmem
      exact le_trans (min_le_right _ _) this
  · split at hok
    · simp at hok
    · have hmem := weightedSelect_mem ns1 c u r hok
      have := fetchNames_prob d Table.first_names c (some (g.getD Gender.ANY))
        p ns1 hf1 r hmem
      exact le_trans (min_le_left _ _) this

/-- Same as `generateFirstName_ok_min_prob` for surnames. -/
theorem generateLastName_ok_min_prob (d : Database) (e : Option Ethnicity)
    (dist : Option EthnicDistribution) (p v u : ℚ)
    (c : EthnicityCat) (r : NameRecord)
    (hsel : selectEthnicity e dist v = .ok c)
    (hok : generateLastName (some d) e dist p v u = .ok r) :
    min p (1/5) ≤ r.prob c := by
  unfold generateLastName generateLastNameT at hok
  rw [hsel] at hok
  simp only at hok
  obtain ⟨ns1, hf1⟩ := fetchNames_isOk d Table.surnames c none p
  rw [hf1] at hok
  simp only at hok
  split at hok
  · obtain ⟨ns2, hf2⟩ := fetchNames_isOk d Table.surnames c none (1/5)
    rw [hf2] at hok
    simp only at hok
    split at hok
    · simp at hok
    · have hmem := weightedSelect_mem ns2 c u r hok
      have := fetchNames_prob d Table.surnames c none (1/5) ns2 hf2 r hmem
      exact le_trans (min_le_right _ _) this
  · split at hok
    · simp at hok
    · have hmem := weightedSelect_mem ns1 c u r hok
      have := fetchNames_prob d Table.surnames c none p ns1 hf1 r hmem
      exact le_trans (min_le_left _ _) this

/-- A first-name run on a concrete ethnicity ignores its resolution draw. -/
theorem generateFirstNameT_concrete_draw (db : Option Database)
    (c : EthnicityCat) (g : Option Gender) (dist : Option EthnicDistribution)
    (p v v' u : ℚ) :
    generateFirstNameT db (some c.toEthnicity) g dist p v u =
      generateFirstNameT db (some c.toEthnicity) g dist p v' u := by
  cases c <;> rfl

/-- A surname run on a concrete ethnicity ignores its resolution draw. -/
theorem generateLastNameT_concrete_draw (db : Option Database)
    (c : EthnicityCat) (dist : Option EthnicDistribution) (p v v' u : ℚ) :
    generateLastNameT db (some c.toEthnicity) dist p v u =
      generateLastNameT db (some c.toEthnicity) dist p v' u := by
  cases c <;> rfl

/-- Every fetch a first-name run performs targets its resolved category. -/
theorem generateFirstNameT_trace_cat (db : Option Database) (c : EthnicityCat)
    (g : Option Gender) (dist : Option EthnicDistribution) (p v u : ℚ) :
    ∀ fc ∈ (generateFirstNameT db (some c.toEthnicity) g dist p v u).2,
      fc.ethnicity = c := by
  intro fc hfc
  unfold generateFirstNameT at hfc
  rw [selectEthnicity_concrete] at hfc
  simp only at hfc
  rcases hf1 : fetchNames db Table.first_names c (some (g.getD Gender.ANY)) p
    with e1 | ns1
  · rw [hf1] at hfc
    simp only [List.mem_singleton] at hfc
    subst hfc
    rfl
  · rw [hf1] at hfc
    simp only at hfc
    split at hfc
    · rcases hf2 : fetchNames db Table.first_names c (some (g.getD Gender.ANY))
        (1/5) with e2 | ns2
      · rw [hf2] at hfc
        simp only [List.mem_cons, List.mem_singleton] at hfc
        rcases hfc with rfl | rfl | hfc
        · rfl
        · rfl
        · simp at hfc
      · rw [hf2] at hfc
        simp only [List.mem_cons, List.mem_singleton] at hfc
        rcases hfc with rfl | rfl | hfc
        · rfl
        · rfl
        · simp at hfc
    · simp only [List.mem_singleton] at hfc
      subst hfc
      rfl

/-- Every fetch a surname run performs targets its resolved category. -/
theorem generateLastNameT_trace_cat (db : Option Database) (c : EthnicityCat)
    (dist : Option EthnicDistribution) (p v u : ℚ) :
    ∀ fc ∈ (generateLastNameT db (some c.toEthnicity) dist p v u).2,
      fc.ethnicity = c := by
  intro fc hfc
  unfold generateLastNameT at hfc
  rw [selectEthnicity_concrete] at hfc
  simp only at hfc
  rcases hf1 : fetchNames db Table.surnames c none p with e1 | ns1
  · rw [hf1] at hfc
    simp only [List.mem_singleton] at hfc
    subst hfc
    rfl
  · rw [hf1] at hfc
    simp only at hfc
    split at hfc
    · rcases hf2 : fetchNames db Table.surnames c none (1/5) with e2 | ns2
      · rw [hf2] at hfc
        simp only [List.mem_cons, List.mem_singleton] at hfc
        rcases hfc with rfl | rfl | hfc
        · rfl
        · rfl
        · simp at hfc
      · rw [hf2] at hfc
        simp only [List.mem_cons, List.mem_singleton] at hfc
        rcases hfc with rfl | rfl | hfc
        · rfl
        · rfl
        · simp at hfc
    · simp only [List.mem_singleton] at hfc
      subst hfc
      rfl

/-- A successful batch iteration with surnames produces an entry whose
`full_name` and `last_name` keys are present. -/
theorem batchStep_surname_fields (db : Option Database)
    (e : Option Ethnicity) (g : Option Gender)
    (dist : Option EthnicDistribution) (rs : RandSrc) (entry : BatchEntry)
    (h : batchStep db e g true dist rs = .ok entry) :
    entry.full_name.isSome = true ∧ entry.last_name.isSome = true := by
  unfold batchStep at h
  simp only [if_true] at h
  rcases hfl : generateFullName db e g dist (2/5) rs.v rs.v1 rs.u1 rs.v2 rs.u2
    with er | fl
  · rw [hfl] at h
    simp at h
  · rw [hfl] at h
    rcases fl with ⟨first, last⟩
    simp only at h
    rw [Except.ok.injEq] at h
    subst h
    exact ⟨rfl, rfl⟩

/-- A successful batch run returns exactly as many entries as requested, each
with the surname-branch keys present when `include_surnames` is set. -/
theorem generateBatchAux_spec (db : Option Database) (e : Option Ethnicity)
    (g : Option Gender) (incl : Bool) (dist : Option EthnicDistribution)
    (rand : ℕ → RandSrc) :
    ∀ (k i : ℕ) (res : List BatchEntry),
      generateBatchAux db e g incl dist rand i k = .ok res →
      res.length = k ∧ ∀ entry ∈ res, incl = true →
        entry.full_name.isSome = true ∧ entry.last_name.isSome = true := by
  intro k
  induction k with
  | zero =>
    intro i res h
    unfold generateBatchAux at h
    rw [Except.ok.injEq] at h
    subst h
    exact ⟨rfl, by simp⟩
  | succ n ih =>
    intro i res h
    unfold generateBatchAux at h
    rcases hstep : batchStep db e g incl dist (rand i) with er | entry
    · rw [hstep] at h
      simp at h
    · rw [hstep] at h
      simp only at h
      rcases hrec : generateBatchAux db e g incl dist rand (i + 1) n
        with er2 | rest
      · rw [hrec] at h
        simp at h
      · rw [hrec] at h
        simp only at h
        rw [Except.ok.injEq] at h
        subst h
        obtain ⟨hlen, hprops⟩ := ih (i + 1) rest hrec
        refine ⟨by simp [hlen], ?_⟩
        intro x hx hincl
        rcases List.mem_cons.mp hx with rfl | hx'
        · subst hincl
          exact batchStep_surname_fields db e g dist (rand i) x hstep
        · exact hprops x hx' hincl

/-! ## Concrete data for witnesses and counterexamples

The records mirror the repository's test fixture (`tests/test_generator.py`),
with the float probabilities written as exact rationals. -/

def maria : NameRecord := ⟨"Maria", some "F", 10000, 1/10, 1/20, 3/4, 2/25, 1/50⟩

def jose : NameRecord := ⟨"Jose", some "M", 8000, 2/25, 3/100, 4/5, 7/100, 1/50⟩

def wei : NameRecord := ⟨"Wei", some "M", 3000, 1/20, 1/50, 3/100, 22/25, 1/50⟩

def garcia : NameRecord := ⟨"Garcia", none, 20000, 1/20, 3/100, 17/20, 1/20, 1/50⟩

def wang : NameRecord := ⟨"Wang", none, 8000, 3/100, 1/100, 1/50, 23/25, 1/50⟩

/-- A populated store: three first names, two surnames. -/
def exDb : Database := ⟨[maria, jose, wei], [garcia, wang]⟩

/-- The first-name table of the spec's §8 example: Maria (hispanic 0.75) and
Wei (asian 0.88). -/
def mariaWeiDb : Database := ⟨[maria, wei], []⟩

/-- A record whose only nonzero probability (white 0.10) sits below the 0.20
fallback threshold. -/
def loRec : NameRecord := ⟨"Lo", some "F", 0, 1/10, 0, 0, 0, 0⟩

/-- A valid, populated store in which no record reaches probability 0.20 for
any category. -/
def loDb : Database := ⟨[loRec], [loRec]⟩

/-- A record with probability 0 for every category. -/
def zeroRec : NameRecord := ⟨"Zero", some "F", 0, 0, 0, 0, 0, 0⟩

/-- A present but completely empty store. -/
def emptyDb : Database := ⟨[], []⟩

/-- The constant stream of draws used by the batch witness. -/
def wBatchRand : ℕ → RandSrc := fun _ => ⟨0, 0, 0, 0, 0⟩

/-- The concrete batch the C9 witness evaluates. -/
def wBatchResult : List BatchEntry :=
  (generateBatch (some exDb) 2 (some Ethnicity.HISPANIC) none true none
    wBatchRand).toOption.getD []

/-! ## The claims -/

/-- C1: with the default `min_probability = 0.40`, if the initial fetch at
threshold 0.40 returns an empty candidate list, `generate_first_name` (resp.
`generate_last_name`) performs exactly one retry at threshold 0.20 — the
recorded fetch trace is exactly `[fetch@0.40, fetch@0.20]`, so the threshold
is never lowered a second time — and if that retry also returns empty the
operation fails with the no-candidates `ValueError`. -/
theorem c1_threshold_fallback (d : Database) (e : Option Ethnicity)
    (g : Option Gender) (dist : Option EthnicDistribution) (v u : ℚ)
    (c : EthnicityCat) (hsel : selectEthnicity e dist v = .ok c) :
    (fetchNames (some d) Table.first_names c (some (g.getD Gender.ANY)) (2/5) =
        .ok [] →
      (generateFirstNameT (some d) e g dist (2/5) v u).2 =
        [⟨Table.first_names, c, some (g.getD Gender.ANY), 2/5⟩,
         ⟨Table.first_names, c, some (g.getD Gender.ANY), 1/5⟩] ∧
      (fetchNames (some d) Table.first_names c (some (g.getD Gender.ANY)) (1/5) =
          .ok [] →
        generateFirstName (some d) e g dist (2/5) v u =
          .error (.valueError (noFirstNamesMsg c (g.getD Gender.ANY))))) ∧
    (fetchNames (some d) Table.surnames c none (2/5) = .ok [] →
      (generateLastNameT (some d) e dist (2/5) v u).2 =
        [⟨Table.surnames, c, none, 2/5⟩, ⟨Table.surnames, c, none, 1/5⟩] ∧
      (fetchNames (some d) Table.surnames c none (1/5) = .ok [] →
        generateLastName (some d) e dist (2/5) v u =
          .error (.valueError (noSurnamesMsg c)))) := by
  constructor
  · intro hf1
    have hcond : (List.isEmpty ([] : List NameRecord)) = true ∧ (1 : ℚ)/5 < 2/5 :=
      ⟨rfl, by norm_num⟩
    constructor
    · unfold generateFirstNameT
      rw [hsel]
      simp only
      rw [hf1]
      simp only
      rw [if_pos hcond]
      rcases hf2 : fetchNames (some d) Table.first_names c
          (some (g.getD Gender.ANY)) (1/5) with er | ns2 <;> rfl
    · intro hf2
      unfold generateFirstName generateFirstNameT
      rw [hsel]
      simp only
      rw [hf1]
      simp only
      rw [if_pos hcond, hf2]
      rfl
  · intro hf1
    have hcond : (List.isEmpty ([] : List NameRecord)) = true ∧ (1 : ℚ)/5 < 2/5 :=
      ⟨rfl, by norm_num⟩
    constructor
    · unfold generateLastNameT
      rw [hsel]
      simp only
      rw [hf1]
      simp only
      rw [if_pos hcond]
      rcases hf2 : fetchNames (some d) Table.surnames c none (1/5)
        with er | ns2 <;> rfl
    · intro hf2
      unfold generateLastName generateLastNameT
      rw [hsel]
      simp only
      rw [hf1]
      simp only
      rw [if_pos hcond, hf2]
      rfl

/-- C1 witness: on the populated store `loDb`, whose only record is below both
thresholds for `white`, the run at the default threshold fetches exactly at
0.40 then 0.20 and fails with the no-candidates `ValueError`. -/
theorem c1_threshold_fallback_witness :
    ((generateFirstNameT (some loDb) (some Ethnicity.WHITE) none none (2/5) 0 0).2 =
      [⟨Table.first_names, .white, some Gender.ANY, 2/5⟩,
       ⟨Table.first_names, .white, some Gender.ANY, 1/5⟩] ∧
     generateFirstName (some loDb) (some Ethnicity.WHITE) none none (2/5) 0 0 =
      .error (.valueError (noFirstNamesMsg .white Gender.ANY))) ∧
    ((generateLastNameT (some loDb) (some Ethnicity.WHITE) none (2/5) 0 0).2 =
      [⟨Table.surnames, .white, none, 2/5⟩, ⟨Table.surnames, .white, none, 1/5⟩] ∧
     generateLastName (some loDb) (some Ethnicity.WHITE) none (2/5) 0 0 =
      .error (.valueError (noSurnamesMsg .white))) := by
  have h := c1_threshold_fallback loDb (some Ethnicity.WHITE) none none 0 0
    .white rfl
  obtain ⟨h1, h2⟩ := h
  obtain ⟨h11, h12⟩ := h1 (by decide)
  obtain ⟨h21, h22⟩ := h2 (by decide)
  exact ⟨⟨h11, h12 (by decide)⟩, ⟨h21, h22 (by decide)⟩⟩

/-- C2 counterexample: the claim quantifies over every `min_probability` in
`[0,1]`, but with `min_probability = 0.10` a successful call returns the
record `loRec`, whose probability for the resolved category `white` is
`0.10 < 0.20`. -/
theorem c2_low_threshold_counterexample :
    (0 : ℚ) ≤ 1/10 ∧ (1 : ℚ)/10 ≤ 1 ∧
    generateFirstName (some loDb) (some Ethnicity.WHITE) none none (1/10) 0 0 =
      .ok loRec ∧
    loRec.prob .white < 1/5 := by
  refine ⟨by norm_num, by norm_num, by decide, by decide⟩

/-- C2 (amended): every record returned by a successful `generate_first_name`
or `generate_last_name` call has probability at least `min(min_probability,
0.20)` for the resolved category; in particular the claimed `≥ 0.20` bound
holds whenever the caller-supplied `min_probability` is at least `0.20`
(including the default `0.40`). -/
theorem c2_probability_floor (d : Database) (e : Option Ethnicity)
    (g : Option Gender) (dist : Option EthnicDistribution) (p v u : ℚ)
    (c : EthnicityCat) (hsel : selectEthnicity e dist v = .ok c) :
    (∀ r, generateFirstName (some d) e g dist p v u = .ok r →
      min p (1/5) ≤ r.prob c) ∧
    (∀ r, generateLastName (some d) e dist p v u = .ok r →
      min p (1/5) ≤ r.prob c) :=
  ⟨fun r h => generateFirstName_ok_min_prob d e g dist p v u c r hsel h,
   fun r h => generateLastName_ok_min_prob d e dist p v u c r hsel h⟩

/-- C2 witness: at the default threshold 0.40, the returned record Maria has
hispanic probability at least `min 0.40 0.20 = 0.20`. -/
theorem c2_probability_floor_witness :
    min (2/5 : ℚ) (1/5) ≤ maria.prob .hispanic :=
  (c2_probability_floor exDb (some Ethnicity.HISPANIC) (some Gender.FEMALE)
    none (2/5) 0 0 .hispanic rfl).1 maria (by decide)

/-- C3: over a non-empty candidate list (nonnegative per-category
probabilities and positive total weight — the shape of every candidate list a
populated fetch hands to the sampler), `_weighted_select` assigns each
candidate the weight `prob[category] * (1 + popularity / 100000)` (second
conjunct: the widths of the cumulative-weight intervals are exactly those
weights) and performs a cumulative-weight draw over the uniform source `u`:
it returns the candidate at index `selIdx` (first conjunct), and `selIdx = i`
exactly when the scaled draw `u * total` lies in the `i`-th cumulative-weight
interval (third conjunct).  For `u` uniform on `[0,1)` the probability of
selecting candidate `i` is therefore `weight i / total` — proportional
sampling, not a deterministic argmax. -/
theorem c3_weighted_sampling (names : List NameRecord) (cat : EthnicityCat)
    (u : ℚ) (hnn : ∀ r ∈ names, 0 ≤ r.prob cat)
    (hpos : 0 < (sampleWeights names cat).sum) (hu0 : 0 ≤ u) (hu1 : u < 1) :
    (∃ h : selIdx names cat u < names.length,
      weightedSelect names cat u =
        .ok (names.get ⟨selIdx names cat u, h⟩)) ∧
    (∀ i (h : i < names.length),
      ((sampleWeights names cat).take (i + 1)).sum -
          ((sampleWeights names cat).take i).sum =
        (names.get ⟨i, h⟩).prob cat *
          (1 + ((names.get ⟨i, h⟩).count : ℚ) / 100000)) ∧
    (∀ i, i < names.length →
      (selIdx names cat u = i ↔
        ((sampleWeights names cat).take i).sum ≤
            u * (sampleWeights names cat).sum ∧
          u * (sampleWeights names cat).sum <
            ((sampleWeights names cat).take (i + 1)).sum)) := by
  have hwnn : ∀ w ∈ sampleWeights names cat, 0 ≤ w := by
    intro w hw
    simp only [sampleWeights, List.mem_map] at hw
    obtain ⟨r, hr, rfl⟩ := hw
    have h1 : (0 : ℚ) ≤ 1 + (r.count : ℚ) / 100000 := by positivity
    exact mul_nonneg (hnn r hr) h1
  refine ⟨weightedSelect_eq_get names cat u hpos, ?_, ?_⟩
  · intro i h
    rw [sum_take_succ]
    have hw : (sampleWeights names cat)[i]? =
        some ((names.get ⟨i, h⟩).prob cat *
          (1 + ((names.get ⟨i, h⟩).count : ℚ) / 100000)) := by
      rw [sampleWeights, List.getElem?_map, List.getElem?_eq_getElem h]
      rfl
    rw [hw]
    simp only [Option.getD_some]
    ring
  · intro i hi
    have hx0 : 0 ≤ u * (sampleWeights names cat).sum :=
      mul_nonneg hu0 (le_of_lt hpos)
    have hxs : u * (sampleWeights names cat).sum < (sampleWeights names cat).sum :=
      mul_lt_of_lt_one_left hpos hu1
    have hi' : i < (sampleWeights names cat).length := by
      rw [sampleWeights_length]
      exact hi
    have hiff := bisect_accumulate_iff (sampleWeights names cat)
      (u * (sampleWeights names cat).sum) hwnn hx0 hxs i hi'
    have hagree : selIdx names cat u =
        bisectRight (accumulate (sampleWeights names cat))
          (u * (sampleWeights names cat).sum)
          ((sampleWeights names cat).length - 1) := by
      unfold selIdx
      rw [sampleWeights_length]
    rw [hagree]
    exact hiff

/-- C3 witness: the sampler over the two hispanic candidates Maria and Jose at
`u = 1/2`, with all the instantiated consequences. -/
theorem c3_weighted_sampling_witness :
    (∃ h : selIdx [maria, jose] .hispanic (1/2) < [maria, jose].length,
      weightedSelect [maria, jose] .hispanic (1/2) =
        .ok ([maria, jose].get ⟨selIdx [maria, jose] .hispanic (1/2), h⟩)) ∧
    (∀ i (h : i < [maria, jose].length),
      ((sampleWeights [maria, jose] .hispanic).take (i + 1)).sum -
          ((sampleWeights [maria, jose] .hispanic).take i).sum =
        ([maria, jose].get ⟨i, h⟩).prob .hispanic *
          (1 + (([maria, jose].get ⟨i, h⟩).count : ℚ) / 100000)) ∧
    (∀ i, i < [maria, jose].length →
      (selIdx [maria, jose] .hispanic (1/2) = i ↔
        ((sampleWeights [maria, jose] .hispanic).take i).sum ≤
            (1/2) * (sampleWeights [maria, jose] .hispanic).sum ∧
          (1/2) * (sampleWeights [maria, jose] .hispanic).sum <
            ((sampleWeights [maria, jose] .hispanic).take (i + 1)).sum)) :=
  c3_weighted_sampling [maria, jose] .hispanic (1/2) (by decide) (by decide)
    (by norm_num) (by norm_num)

/-- C4: `generate_full_name` resolves the ethnicity category once (from the
single draw `v`), every fetch performed by the first-name and the surname
sub-calls targets that same concrete category, and the result does not depend
on the resolution draws `v1`, `v2` of the two sub-calls (their
`_select_ethnicity` calls receive a concrete category and consume no
randomness) — the coherence invariant. -/
theorem c4_full_name_coherence (db : Option Database) (e : Option Ethnicity)
    (g : Option Gender) (dist : Option EthnicDistribution)
    (p v v1 u1 v2 u2 v1' v2' : ℚ) (c : EthnicityCat)
    (hsel : selectEthnicity e dist v = .ok c) :
    (∀ fc ∈ (generateFullNameT db e g dist p v v1 u1 v2 u2).2,
      fc.ethnicity = c) ∧
    generateFullNameT db e g dist p v v1 u1 v2 u2 =
      generateFullNameT db e g dist p v v1' u1 v2' u2 := by
  constructor
  · intro fc hfc
    unfold generateFullNameT at hfc
    rw [hsel] at hfc
    simp only at hfc
    rcases hA : generateFirstNameT db (some c.toEthnicity) g dist p v1 u1
      with ⟨res1, t1⟩
    rw [hA] at hfc
    rcases res1 with er | first
    · simp only at hfc
      refine generateFirstNameT_trace_cat db c g dist p v1 u1 fc ?_
      rw [hA]
      exact hfc
    · rcases hB : generateLastNameT db (some c.toEthnicity) dist p v2 u2
        with ⟨res2, t2⟩
      rw [hB] at hfc
      rcases res2 with er2 | last
      · simp only at hfc
        rcases List.mem_append.mp hfc with h1 | h2
        · refine generateFirstNameT_trace_cat db c g dist p v1 u1 fc ?_
          rw [hA]
          exact h1
        · refine generateLastNameT_trace_cat db c dist p v2 u2 fc ?_
          rw [hB]
          exact h2
      · simp only at hfc
        rcases List.mem_append.mp hfc with h1 | h2
        · refine generateFirstNameT_trace_cat db c g dist p v1 u1 fc ?_
          rw [hA]
          exact h1
        · refine generateLastNameT_trace_cat db c dist p v2 u2 fc ?_
          rw [hB]
          exact h2
  · unfold generateFullNameT
    rw [hsel]
    simp only
    rw [generateFirstNameT_concrete_draw db c g dist p v1 v1' u1,
      generateLastNameT_concrete_draw db c dist p v2 v2' u2]

/-- C4 witness: a full-name run on `exDb` with the hispanic category; the
trace targets `hispanic` throughout and the result ignores the sub-draws. -/
theorem c4_full_name_coherence_witness :
    (∀ fc ∈ (generateFullNameT (some exDb) (some Ethnicity.HISPANIC) none none
        (2/5) 0 0 0 0 0).2, fc.ethnicity = .hispanic) ∧
    generateFullNameT (some exDb) (some Ethnicity.HISPANIC) none none
        (2/5) 0 0 0 0 0 =
      generateFullNameT (some exDb) (some Ethnicity.HISPANIC) none none
        (2/5) 0 (1/3) 0 (2/3) 0 :=
  c4_full_name_coherence (some exDb) (some Ethnicity.HISPANIC) none none
    (2/5) 0 0 0 0 0 (1/3) (2/3) .hispanic rfl

/-- C5: `_fetch_names` over a present store returns exactly the records of the
requested table whose probability for the category is at least
`min_probability`, restricted to the matching gender exactly when a gender
other than `ANY` is passed and the table is `first_names`; on the spec's
example table, the hispanic query at threshold 0.40 returns only Maria and
the asian query only Wei. -/
theorem c5_fetch_candidates (d : Database) (table : Table) (cat : EthnicityCat)
    (g : Option Gender) (p : ℚ) (ns : List NameRecord) (r : NameRecord)
    (h : fetchNames (some d) table cat g p = .ok ns) :
    (r ∈ ns ↔ r ∈ d.rows table ∧ p ≤ r.prob cat ∧
      ∀ gg, g = some gg → gg ≠ Gender.ANY → table = Table.first_names →
        r.gender = some gg.value) ∧
    fetchNames (some mariaWeiDb) Table.first_names .hispanic none (2/5) =
      .ok [maria] ∧
    fetchNames (some mariaWeiDb) Table.first_names .asian none (2/5) =
      .ok [wei] :=
  ⟨mem_fetchNames d table cat g p ns r h, by decide, by decide⟩

/-- C5 witness: the characterization applied to the hispanic query on the
example table, at the record Maria. -/
theorem c5_fetch_candidates_witness :
    (maria ∈ [maria] ↔ maria ∈ mariaWeiDb.rows Table.first_names ∧
      (2/5 : ℚ) ≤ maria.prob .hispanic ∧
      ∀ gg, (none : Option Gender) = some gg → gg ≠ Gender.ANY →
        Table.first_names = Table.first_names →
        maria.gender = some gg.value) ∧
    fetchNames (some mariaWeiDb) Table.first_names .hispanic none (2/5) =
      .ok [maria] ∧
    fetchNames (some mariaWeiDb) Table.first_names .asian none (2/5) =
      .ok [wei] :=
  c5_fetch_candidates mariaWeiDb Table.first_names .hispanic none (2/5)
    [maria] maria (by decide)

/-- C6: sampling from an empty candidate list fails with the fixed
`ValueError("No names available for selection")` (the `InvalidArgument`
condition), while a zero-match request that has exhausted the threshold retry
fails with the request-specific no-candidates `ValueError`; the two error
values differ (for every category and gender the messages are distinct), so a
caller can tell them apart.  Both are, however, instances of the same Python
exception class `ValueError`. -/
theorem c6_invalid_argument_distinct :
    (∀ (cat : EthnicityCat) (u : ℚ),
      weightedSelect [] cat u = .error (.valueError emptySelectionMsg)) ∧
    (∀ (d : Database) (e : Option Ethnicity) (g : Option Gender)
        (dist : Option EthnicDistribution) (p v u : ℚ) (c : EthnicityCat),
      selectEthnicity e dist v = .ok c →
      fetchNames (some d) Table.first_names c (some (g.getD Gender.ANY)) p =
        .ok [] →
      fetchNames (some d) Table.first_names c (some (g.getD Gender.ANY)) (1/5) =
        .ok [] →
      generateFirstName (some d) e g dist p v u =
        .error (.valueError (noFirstNamesMsg c (g.getD Gender.ANY)))) ∧
    (∀ (c : EthnicityCat) (g : Gender),
      PyError.valueError emptySelectionMsg ≠
        PyError.valueError (noFirstNamesMsg c g)) ∧
    (∀ c : EthnicityCat,
      PyError.valueError emptySelectionMsg ≠
        PyError.valueError (noSurnamesMsg c)) := by
  refine ⟨fun cat u => rfl, ?_, ?_, ?_⟩
  · intro d e g dist p v u c hsel hf1 hf2
    unfold generateFirstName generateFirstNameT
    rw [hsel]
    simp only
    rw [hf1]
    simp only
    by_cases hp : (1 : ℚ)/5 < p
    · rw [if_pos ⟨rfl, hp⟩, hf2]
      rfl
    · rw [if_neg (fun hc => hp hc.2)]
      rfl
  · intro c g
    cases c <;> cases g <;> decide
  · intro c
    cases c <;> decide

/-- C6 witness: the two concrete error values on the `white`/`ANY` request. -/
theorem c6_invalid_argument_distinct_witness :
    weightedSelect [] .white 0 = .error (.valueError emptySelectionMsg) ∧
    generateFirstName (some emptyDb) (some Ethnicity.WHITE) none none (2/5) 0 0 =
      .error (.valueError (noFirstNamesMsg .white Gender.ANY)) ∧
    PyError.valueError emptySelectionMsg ≠
      PyError.valueError (noFirstNamesMsg .white Gender.ANY) :=
  ⟨c6_invalid_argument_distinct.1 .white 0,
   c6_invalid_argument_distinct.2.1 emptyDb (some Ethnicity.WHITE) none none
     (2/5) 0 0 .white rfl (by decide) (by decide),
   c6_invalid_argument_distinct.2.2.1 .white Gender.ANY⟩

/-- C7 counterexample: with a present but empty name table, the run does not
fail with a `DataUnavailable`-style error distinguishable from `NoCandidates`:
it produces exactly the same no-candidates `ValueError` as a run on the valid,
populated store `loDb` whose records merely miss both thresholds — the empty
store is indistinguishable from the zero-matches case, contradicting the
claim for the "empty" half of "missing or empty". -/
theorem c7_empty_table_counterexample :
    generateFirstName (some emptyDb) (some Ethnicity.WHITE) none none (2/5) 0 0 =
      generateFirstName (some loDb) (some Ethnicity.WHITE) none none (2/5) 0 0 ∧
    generateFirstName (some emptyDb) (some Ethnicity.WHITE) none none (2/5) 0 0 =
      .error (.valueError (noFirstNamesMsg .white Gender.ANY)) :=
  ⟨by decide, by decide⟩

/-- C7 (amended): if the data source is missing, every generation request
fails with `FileNotFoundError` (the `DataUnavailable` condition), which is
distinguishable from every `ValueError` (in particular from the
`NoCandidates` errors), and no result is returned; a present-but-empty table,
however, fails with the same `NoCandidates` `ValueError` as a zero-match
query (see the counterexample) rather than a distinguishable error. -/
theorem c7_missing_source (e : Option Ethnicity) (g : Option Gender)
    (dist : Option EthnicDistribution) (p v u : ℚ) (c : EthnicityCat)
    (hsel : selectEthnicity e dist v = .ok c) :
    generateFirstName none e g dist p v u =
      .error (.fileNotFoundError dbNotFoundMsg) ∧
    generateLastName none e dist p v u =
      .error (.fileNotFoundError dbNotFoundMsg) ∧
    ∀ m m' : String, PyError.fileNotFoundError m ≠ PyError.valueError m' := by
  refine ⟨?_, ?_, fun m m' h => PyError.noConfusion h⟩
  · unfold generateFirstName generateFirstNameT
    rw [hsel]
    rfl
  · unfold generateLastName generateLastNameT
    rw [hsel]
    rfl

/-- C7 witness: the missing-source failure on a concrete request. -/
theorem c7_missing_source_witness :
    generateFirstName none (some Ethnicity.WHITE) none none (2/5) 0 0 =
      .error (.fileNotFoundError dbNotFoundMsg) ∧
    generateLastName none (some Ethnicity.WHITE) none (2/5) 0 0 =
      .error (.fileNotFoundError dbNotFoundMsg) ∧
    ∀ m m' : String, PyError.fileNotFoundError m ≠ PyError.valueError m' :=
  c7_missing_source (some Ethnicity.WHITE) none none (2/5) 0 0 .white rfl

/-- C8 counterexample: the claim says the singleton sampler succeeds
regardless of the record's probability values, but on a record with
probability 0 for the category the total weight is 0 and `random.choices`
raises `ValueError("Total of weights must be greater than zero")` instead of
returning the candidate. -/
theorem c8_zero_weight_counterexample :
    weightedSelect [zeroRec] .white 0 = .error (.valueError zeroTotalMsg) := by
  decide

/-- C8 (amended): over a singleton candidate list the weighted sampler
returns that sole candidate whenever the candidate's probability for the
category is positive (its weight is then positive, the popularity factor
being at least 1); with probability 0 the call instead fails with the
zero-total-weight `ValueError` (see the counterexample). -/
theorem c8_singleton_select (r : NameRecord) (cat : EthnicityCat) (u : ℚ)
    (h : 0 < r.prob cat) :
    weightedSelect [r] cat u = .ok r := by
  have hw : 0 < (sampleWeights [r] cat).sum := by
    have h1 : (0 : ℚ) < 1 + (r.count : ℚ) / 100000 := by positivity
    simp only [sampleWeights, List.map_cons, List.map_nil, List.sum_cons,
      List.sum_nil, add_zero]
    exact mul_pos h h1
  obtain ⟨h1, h2⟩ := weightedSelect_eq_get [r] cat u hw
  rw [h2]
  congr

/-- C8 witness: the singleton sampler on Maria (hispanic probability 3/4). -/
theorem c8_singleton_select_witness :
    weightedSelect [maria] .hispanic (1/2) = .ok maria :=
  c8_singleton_select maria .hispanic (1/2) (by decide)

/-- C9: a successful `generate_batch` call with `count = N` returns exactly
`N` result entries (each always carries a `first_name` field by
construction), and when `include_surnames` is set every entry additionally
carries the `full_name` and `last_name` keys. -/
theorem c9_batch_count (db : Option Database) (count : ℕ)
    (e : Option Ethnicity) (g : Option Gender) (incl : Bool)
    (dist : Option EthnicDistribution) (rand : ℕ → RandSrc)
    (res : List BatchEntry)
    (h : generateBatch db count e g incl dist rand = .ok res) :
    res.length = count ∧ ∀ entry ∈ res, incl = true →
      entry.full_name.isSome = true ∧ entry.last_name.isSome = true :=
  generateBatchAux_spec db e g incl dist rand count 0 res h

/-- C9 witness: the concrete 2-element batch on `exDb`. -/
theorem c9_batch_count_witness :
    wBatchResult.length = 2 ∧ ∀ entry ∈ wBatchResult, true = true →
      entry.full_name.isSome = true ∧ entry.last_name.isSome = true :=
  c9_batch_count (some exDb) 2 (some Ethnicity.HISPANIC) none true none
    wBatchRand wBatchResult (by decide)

/-- C10: calling `generate_first_name` with `gender` omitted (`None`) is
indistinguishable from calling it with `Gender.ANY`: the full instrumented
run — result and fetch trace alike — is identical (the code coalesces
`gender = gender or Gender.ANY`), and `_fetch_names` itself applies no gender
restriction in either case. -/
theorem c10_gender_none_eq_any (db : Option Database) (e : Option Ethnicity)
    (dist : Option EthnicDistribution) (p v u : ℚ) :
    generateFirstNameT db e none dist p v u =
      generateFirstNameT db e (some Gender.ANY) dist p v u ∧
    ∀ (t : Table) (c : EthnicityCat),
      fetchNames db t c none p = fetchNames db t c (some Gender.ANY) p := by
  refine ⟨rfl, ?_⟩
  intro t c
  cases db with
  | none => rfl
  | some d => simp [fetchNames]

end NameGen
